import Mathlib

/-!
Verification of the DEX-analyzer repository's spread/threshold, caching,
price-simulation, threshold-validation and price-formatting logic.

Python dictionaries are embedded as association lists in insertion order
(`List (κ × α)`); Python floats are embedded as exact rationals (`ℚ`);
the random draw of `random.uniform` and the network providers are passed
in as explicit parameters so that the functions stay pure.
-/

namespace DexAnalyzer

/-- Python dict assignment `d[k] = v`: an existing key keeps its position
and gets the new value, a new key is appended at the end. -/
def updAssoc {κ α : Type} [DecidableEq κ] (k : κ) (v : α) :
    List (κ × α) → List (κ × α)
  | [] => [(k, v)]
  | (k2, v2) :: rest =>
      if k2 = k then (k, v) :: rest else (k2, v2) :: updAssoc k v rest

/-- Python dict lookup `d.get(k)`: the value at the first (unique)
occurrence of the key. -/
def getAssoc {κ α : Type} [DecidableEq κ] (k : κ) :
    List (κ × α) → Option α
  | [] => none
  | (k2, v2) :: rest => if k2 = k then some v2 else getAssoc k rest

/-- A Python `{dex: price}` dict, in insertion order. -/
abbrev PriceMap := List (String × ℚ)

/-- `min(prices, key=prices.get)`: the first entry attaining the minimal
value (Python's `min` only replaces the current best on a strictly
smaller value, so ties keep the earliest entry). -/
def argminFirst : PriceMap → Option (String × ℚ)
  | [] => none
  | (k, v) :: rest =>
      match argminFirst rest with
      | none => some (k, v)
      | some (k2, v2) => if v2 < v then some (k2, v2) else some (k, v)

/-- `max(prices, key=prices.get)`: the first entry attaining the maximal
value. -/
def argmaxFirst : PriceMap → Option (String × ℚ)
  | [] => none
  | (k, v) :: rest =>
      match argmaxFirst rest with
      | none => some (k, v)
      | some (k2, v2) => if v < v2 then some (k2, v2) else some (k, v)

/-- `ArbitrageOpportunity` (services/arbitrage_analyzer.py). -/
structure ArbOpp where
  token : String
  buy_dex : String
  buy_price : ℚ
  sell_dex : String
  sell_price : ℚ
  profit_percent : ℚ
  deriving Repr, DecidableEq

/-- The min/max spread percentage computed by
`ArbitrageAnalyzer._analyze_price_spread` (lines 85-90):
`((max_price - min_price) / min_price) * 100`. -/
def spread_percent (prices : PriceMap) : Option ℚ :=
  match argminFirst prices, argmaxFirst prices with
  | some (_, minPrice), some (_, maxPrice) =>
      some ((maxPrice - minPrice) / minPrice * 100)
  | _, _ => none

/-- `ArbitrageAnalyzer._analyze_price_spread`: find the first-seen
min-price and max-price venues, compute the percentage spread, and
return an opportunity exactly when `profit_percent >= self.threshold`. -/
def analyze_price_spread (threshold : ℚ) (token : String)
    (prices : PriceMap) : Option ArbOpp :=
  match argminFirst prices, argmaxFirst prices with
  | some (minDex, minPrice), some (maxDex, maxPrice) =>
      let profitPercent := (maxPrice - minPrice) / minPrice * 100
      if threshold ≤ profitPercent then
        some { token := token, buy_dex := minDex, buy_price := minPrice,
               sell_dex := maxDex, sell_price := maxPrice,
               profit_percent := profitPercent }
      else none
  | _, _ => none

/-- The per-token price dict assembled by
`ArbitrageAnalyzer.find_opportunities` (lines 60-63): a venue enters the
dict exactly when the stored price is truthy and `> 0`. -/
def analyzer_token_prices (getPrice : String → String → Option ℚ)
    (dexes : List String) (token : String) : PriceMap :=
  dexes.filterMap fun dex =>
    match getPrice token dex with
    | some p => if 0 < p then some (dex, p) else none
    | none => none

/-- `ArbitrageAnalyzer.find_opportunities`: for each token, gather the
positive venue prices and analyze the spread when at least two venues
have one. -/
def analyzer_find_opportunities (threshold : ℚ)
    (getPrice : String → String → Option ℚ)
    (tokens dexes : List String) : List ArbOpp :=
  tokens.filterMap fun token =>
    if 2 ≤ (analyzer_token_prices getPrice dexes token).length then
      analyze_price_spread threshold token
        (analyzer_token_prices getPrice dexes token)
    else none

/-! ## ArbitrageScannerThread (gui/threads/arbitrage_scanner.py) -/

/-- An opportunity dict built by `ArbitrageScannerThread.find_opportunities`. -/
structure ScanOpp where
  token_id : ℕ
  symbol : String
  name : String
  buy_dex : String
  buy_price : ℚ
  sell_dex : String
  sell_price : ℚ
  profit_usd : ℚ
  profit_pct : ℚ
  threshold_value : ℚ
  threshold_mode : String
  threshold_met : Bool
  deriving Repr, DecidableEq

/-- One opportunity dict for a `(buy, sell)` venue pair (lines 106-130):
`profit_usd = sell_price - buy_price`,
`profit_pct = profit_usd / buy_price * 100 if buy_price > 0 else 0`, and
`threshold_met` by mode. -/
def pairOpp (token_id : ℕ) (symbol name : String) (tv : ℚ) (mode : String)
    (buy sell : String × ℚ) : ScanOpp :=
  let profit_usd := sell.2 - buy.2
  let profit_pct := if 0 < buy.2 then profit_usd / buy.2 * 100 else 0
  { token_id := token_id, symbol := symbol, name := name,
    buy_dex := buy.1, buy_price := buy.2,
    sell_dex := sell.1, sell_price := sell.2,
    profit_usd := profit_usd, profit_pct := profit_pct,
    threshold_value := tv, threshold_mode := mode,
    threshold_met :=
      if mode = "percentage" then decide (tv ≤ profit_pct)
      else decide (tv ≤ profit_usd) }

/-- The double loop of `ArbitrageScannerThread.find_opportunities`
(lines 101-131): every ordered pair `(i, j)` with `i < j` of
`dex_list = list(prices.items())` whose earlier price is strictly below
the later one produces a record; pairs with `buy_price >= sell_price`
are skipped. -/
def pairRecords (token_id : ℕ) (symbol name : String) (tv : ℚ)
    (mode : String) : List (String × ℚ) → List ScanOpp
  | [] => []
  | b :: rest =>
      (rest.filterMap fun s =>
        if b.2 < s.2 then some (pairOpp token_id symbol name tv mode b s)
        else none)
        ++ pairRecords token_id symbol name tv mode rest

/-- Stable insertion step for a descending sort on `profit_pct`. -/
def insertDesc (x : ScanOpp) : List ScanOpp → List ScanOpp
  | [] => [x]
  | y :: ys =>
      if y.profit_pct ≤ x.profit_pct then x :: y :: ys
      else y :: insertDesc x ys

/-- `opportunities.sort(key=lambda x: x['profit_pct'], reverse=True)`:
a stable descending sort on `profit_pct` (Python's sort is stable, so
records with equal `profit_pct` keep their original order; the stable
insertion sort below computes the same list). -/
def sortByProfitDesc : List ScanOpp → List ScanOpp
  | [] => []
  | x :: xs => insertDesc x (sortByProfitDesc xs)

/-- `ArbitrageScannerThread.find_opportunities`: all increasing venue
pairs, sorted by `profit_pct` descending. -/
def scanner_find_opportunities (token_id : ℕ) (symbol name : String)
    (tv : ℚ) (mode : String) (prices : PriceMap) : List ScanOpp :=
  sortByProfitDesc (pairRecords token_id symbol name tv mode prices)

/-- A simulated DEX price record (the dict built by
`DataService._generate_dex_price`). -/
structure PriceData where
  price_usd : ℚ
  volume_24h : ℚ
  price_change_24h : ℚ
  liquidity_usd : ℚ
  last_updated : String
  source : String
  deriving Repr, DecidableEq

/-- The per-token price dict assembled by `ArbitrageScannerThread.run`
(lines 65-70): a venue enters the dict exactly when its record is
present and its `price_usd` is truthy (nonzero). -/
def scanner_token_prices (dexMap : List (String × PriceData))
    (dexKeys : List String) : PriceMap :=
  dexKeys.filterMap fun dk =>
    match getAssoc dk dexMap with
    | some pd => if pd.price_usd ≠ 0 then some (dk, pd.price_usd) else none
    | none => none

/-- The per-token body of `ArbitrageScannerThread.run` (lines 62-77):
look the token up in the bulk result, keep venues with truthy prices,
and only analyze when at least two venues remain. -/
def scanner_run_token (allPrices : List (String × List (String × PriceData)))
    (dexKeys : List String) (token_id : ℕ) (symbol name : String)
    (tv : ℚ) (mode : String) : List ScanOpp :=
  match getAssoc symbol allPrices with
  | none => []
  | some dexMap =>
      let prices := scanner_token_prices dexMap dexKeys
      if 2 ≤ prices.length then
        scanner_find_opportunities token_id symbol name tv mode prices
      else []

/-! ## Config (config.py) -/

namespace Config

/-- `Config.PRICE_CACHE_TTL = 30` seconds. -/
def PRICE_CACHE_TTL : ℕ := 30

/-- `Config.DEFAULT_THRESHOLD = 1.0` percent. -/
def DEFAULT_THRESHOLD : ℚ := 1

end Config

/-! ## SimpleCache (utils/cache.py) and DataService
(services/data_service.py) -/

/-- `SimpleCache`, a wrapper around `cachetools.TTLCache`: entries carry
their insertion time and are visible while `now < inserted + ttl`.
`make_key(symbol, dex)` is embedded as the pair itself (the md5 hash in
the source only shortens the key string). Size-based eviction at
`maxsize` is not modelled; the claims considered here only concern
hit/miss behaviour, on which eviction of other keys has no bearing. -/
structure SimpleCache where
  entries : List ((String × String) × (PriceData × ℕ))
  ttl : ℕ
  deriving Repr, DecidableEq

namespace SimpleCache

/-- `cache.get(key)`: the stored value if present and unexpired. -/
def get (c : SimpleCache) (now : ℕ) (k : String × String) :
    Option PriceData :=
  match getAssoc k c.entries with
  | some vt => if now < vt.2 + c.ttl then some vt.1 else none
  | none => none

/-- `cache[key] = value`: store the value and reset its TTL timer. -/
def set (c : SimpleCache) (now : ℕ) (k : String × String)
    (v : PriceData) : SimpleCache :=
  { c with entries := updAssoc k (v, now) c.entries }

end SimpleCache

/-- A base price record returned by the CoinGecko provider
(`coingecko.get_token_price` / `coingecko.get_multiple_prices`). -/
structure BaseData where
  price_usd : ℚ
  volume_24h : ℚ
  price_change_24h : ℚ
  market_cap : ℚ
  last_updated : String
  deriving Repr, DecidableEq

/-- Round half to even, to an integer (the semantics of Python's
builtin `round`). -/
def rhe (x : ℚ) : ℤ :=
  let f := ⌊x⌋
  let r := x - f
  if r < 1/2 then f
  else if 1/2 < r then f + 1
  else if Even f then f else f + 1

/-- `round(x, 6)`: round to 6 decimal places. -/
def round6 (x : ℚ) : ℚ := (rhe (x * 1000000) : ℚ) / 1000000

/-- `DataService._generate_dex_price`: multiply the base price by the
random draw `variation` (the result of `random.uniform(0.999, 1.02)`),
round to 6 decimals, and repackage the record. -/
def generate_dex_price (base : BaseData) (dex_key : String)
    (variation : ℚ) : PriceData :=
  { price_usd := round6 (base.price_usd * variation),
    volume_24h := base.volume_24h,
    price_change_24h := base.price_change_24h,
    liquidity_usd := base.market_cap * (1/100),
    last_updated := base.last_updated,
    source := dex_key ++ "_simulated" }

/-- `DataService.get_token_price`: cache lookup, then provider call,
then DEX simulation and cache fill. The provider and the random draw
are parameters; the third component of the result counts the calls
made to `self.coingecko.get_token_price`. -/
def get_token_price (provider : String → Option BaseData)
    (variation : ℚ) (now : ℕ) (cache : SimpleCache)
    (token_symbol dex_key : String) :
    Option PriceData × SimpleCache × ℕ :=
  match cache.get now (token_symbol, dex_key) with
  | some cached => (some cached, cache, 0)
  | none =>
      match provider token_symbol with
      | none => (none, cache, 1)
      | some base_data =>
          let result := generate_dex_price base_data dex_key variation
          (some result, cache.set now (token_symbol, dex_key) result, 1)

/-- The inner loop of step 1 of `get_bulk_prices_all_dexes`
(lines 141-151): for one symbol, walk the DEX keys, recording cache
hits in the symbol's dict and appending the symbol to `cache_misses`
on its first miss (`if symbol not in cache_misses`). -/
def bulkScanSymbol (cache : SimpleCache) (now : ℕ) (symbol : String) :
    List String → List (String × PriceData) × List String →
    List (String × PriceData) × List String
  | [], acc2 => acc2
  | dk :: rest, acc2 =>
      match cache.get now (symbol, dk) with
      | some v =>
          bulkScanSymbol cache now symbol rest (updAssoc dk v acc2.1, acc2.2)
      | none =>
          bulkScanSymbol cache now symbol rest
            (acc2.1,
             if symbol ∈ acc2.2 then acc2.2 else acc2.2 ++ [symbol])

/-- The outer loop of step 1 of `get_bulk_prices_all_dexes`
(lines 139-151): `cache_hits[symbol] = {}`, then the inner DEX scan. -/
def bulkStep1Aux (cache : SimpleCache) (now : ℕ) (dexKeys : List String) :
    List String →
    List (String × List (String × PriceData)) × List String →
    List (String × List (String × PriceData)) × List String
  | [], acc => acc
  | symbol :: rest, acc =>
      bulkStep1Aux cache now dexKeys rest
        (updAssoc symbol
          (bulkScanSymbol cache now symbol dexKeys ([], acc.2)).1 acc.1,
         (bulkScanSymbol cache now symbol dexKeys ([], acc.2)).2)

/-- Step 1 of `DataService.get_bulk_prices_all_dexes` (lines 135-151):
scan all (symbol, dex) pairs against the cache, building `cache_hits`
and the deduplicated `cache_misses` list. -/
def bulkStep1 (cache : SimpleCache) (now : ℕ) (dexKeys : List String)
    (tokenSymbols : List String) :
    List (String × List (String × PriceData)) × List String :=
  bulkStep1Aux cache now dexKeys tokenSymbols ([], [])

/-- Step 3 of `get_bulk_prices_all_dexes` (lines 157-171): for each
fetched base record, simulate every DEX, cache each simulated record
and add it to the result. -/
def bulkFill (vary : String → String → ℚ) (now : ℕ)
    (dexKeys : List String) (basePrices : List (String × BaseData))
    (st : List (String × List (String × PriceData)) × SimpleCache) :
    List (String × List (String × PriceData)) × SimpleCache :=
  basePrices.foldl
    (fun acc sb =>
      let hits :=
        if (getAssoc sb.1 acc.1).isSome then acc.1
        else updAssoc sb.1 [] acc.1
      dexKeys.foldl
        (fun acc2 dk =>
          let d := generate_dex_price sb.2 dk (vary sb.1 dk)
          (updAssoc sb.1 (updAssoc dk d ((getAssoc sb.1 acc2.1).getD []))
             acc2.1,
           acc2.2.set now (sb.1, dk) d))
        (hits, acc.2))
    st

/-- `DataService.get_bulk_prices_all_dexes`, with the provider and the
random draws passed in. The third component lists the upstream requests
issued, each being the symbol list passed to
`coingecko.get_multiple_prices`. -/
def get_bulk_prices_all_dexes
    (provider : List String → List (String × BaseData))
    (vary : String → String → ℚ) (now : ℕ) (cache : SimpleCache)
    (token_symbols dex_keys : List String) :
    List (String × List (String × PriceData)) × SimpleCache ×
      List (List String) :=
  if token_symbols = [] then ([], cache, [])
  else
    let step1 := bulkStep1 cache now dex_keys token_symbols
    if step1.2 = [] then (step1.1, cache, [])
    else
      let filled := bulkFill vary now dex_keys (provider step1.2)
        (step1.1, cache)
      (filled.1, filled.2, [step1.2])

/-! ## TokenManager (services/token_manager.py) -/

/-- The tracked-token table: `token_id → (threshold_value,
threshold_mode)` (`INSERT OR REPLACE` keyed on `token_id`). -/
structure TrackedState where
  tracked : List (ℕ × ℚ × String)
  deriving Repr, DecidableEq

/-- `DatabaseManager.add_tracked_token`: `INSERT OR REPLACE`. -/
def db_add_tracked_token (st : TrackedState) (token_id : ℕ)
    (threshold_value : ℚ) (threshold_mode : String) : TrackedState :=
  { tracked :=
      updAssoc token_id (threshold_value, threshold_mode) st.tracked }

/-- `DatabaseManager.update_token_threshold`:
`UPDATE ... WHERE token_id = ?` (a no-op when the token is absent). -/
def db_update_token_threshold (st : TrackedState) (token_id : ℕ)
    (threshold_value : ℚ) (threshold_mode : String) : TrackedState :=
  { tracked := st.tracked.map fun e =>
      if e.1 = token_id then (token_id, threshold_value, threshold_mode)
      else e }

/-- `TokenManager.add_token_to_tracked`: reject a negative threshold or
an unknown mode before touching the database. -/
def add_token_to_tracked (st : TrackedState) (token_id : ℕ)
    (threshold_value : ℚ) (threshold_mode : String) :
    Bool × TrackedState :=
  if threshold_value < 0 then (false, st)
  else if threshold_mode ∉ ["percentage", "dollar"] then (false, st)
  else
    (true, db_add_tracked_token st token_id threshold_value threshold_mode)

/-- `TokenManager.update_token_threshold`: reject a negative threshold
or an unknown mode before touching the database. -/
def update_token_threshold (st : TrackedState) (token_id : ℕ)
    (threshold_value : ℚ) (threshold_mode : String) :
    Bool × TrackedState :=
  if threshold_value < 0 then (false, st)
  else if threshold_mode ∉ ["percentage", "dollar"] then (false, st)
  else
    (true,
     db_update_token_threshold st token_id threshold_value threshold_mode)

/-! ## format_price (utils/cache.py) -/

/-- `str.rstrip(c)` with a single strip character, on the character
list of a string: remove the trailing run of `c`. -/
def stripTail (c : Char) : List Char → List Char
  | [] => []
  | x :: xs =>
      let r := stripTail c xs
      if r = [] ∧ x = c then [] else x :: r

/-- The decimal digits of a natural number, as characters. -/
def natChars (n : ℕ) : List Char := (Nat.repr n).data

/-- Zero-pad on the left to the given width. -/
def padZeros (w : ℕ) (s : List Char) : List Char :=
  List.replicate (w - s.length) '0' ++ s

/-- Helper for Python's `{:,}` grouping: on the reversed digit list,
insert a comma after every third digit. -/
def groupRev : List Char → List Char
  | a :: b :: c :: d :: rest => a :: b :: c :: ',' :: groupRev (d :: rest)
  | l => l

/-- Python `{:,}` thousands grouping of an integer-part digit string. -/
def groupThrees (s : List Char) : List Char := (groupRev s.reverse).reverse

/-- `f"{x:.nf}"` for a nonnegative rational and `n ≥ 1`: fixed-point
notation with `n` decimal digits, rounding half to even. -/
def formatFixed (x : ℚ) (n : ℕ) : List Char :=
  let m := (rhe (x * (10 : ℚ) ^ n)).toNat
  natChars (m / 10 ^ n) ++ '.' :: padZeros n (natChars (m % 10 ^ n))

/-- `f"{x:,.2f}"`: fixed-point with comma-grouped integer part. -/
def formatFixedCommas (x : ℚ) (n : ℕ) : List Char :=
  let m := (rhe (x * (10 : ℚ) ^ n)).toNat
  groupThrees (natChars (m / 10 ^ n)) ++
    '.' :: padZeros n (natChars (m % 10 ^ n))

/-- `format_price` (utils/cache.py lines 7-38): `"$0.00"` for
nonpositive prices, then magnitude-tiered precision; in the smallest
tier trailing zeros and then a trailing decimal point are stripped
from the end of the string (`rstrip` only ever removes trailing
characters, so stripping the `"$..."` string equals stripping the
number part). -/
def format_price (price : ℚ) : String :=
  if price ≤ 0 then "$0.00"
  else if price < 1/100 then
    ⟨stripTail '.' (stripTail '0' ('$' :: formatFixed price 6))⟩
  else if price < 1 then ⟨'$' :: formatFixed price 4⟩
  else if price < 100 then ⟨'$' :: formatFixed price 3⟩
  else ⟨'$' :: formatFixedCommas price 2⟩

/-- Number of venues with a positive known price for a symbol in a
bulk-price result (counting helper used to state the claims). -/
def positiveVenueCount
    (allPrices : List (String × List (String × PriceData)))
    (dexKeys : List String) (symbol : String) : ℕ :=
  match getAssoc symbol allPrices with
  | none => 0
  | some dexMap =>
      (dexKeys.filter fun dk =>
        match getAssoc dk dexMap with
        | some pd => decide (0 < pd.price_usd)
        | none => false).length

section ArgLemmas

/-- `argminFirst` fails only on the empty map. -/
theorem argminFirst_eq_none {l : PriceMap} (h : argminFirst l = none) :
    l = [] := by
  cases l with
  | nil => rfl
  | cons hd tl =>
    rcases hd with ⟨k, v⟩
    simp only [argminFirst] at h
    cases htl : argminFirst tl with
    | none => simp only [htl] at h; simp at h
    | some q =>
      rcases q with ⟨k2, v2⟩
      simp only [htl] at h
      by_cases hv : v2 < v
      · rw [if_pos hv] at h; simp at h
      · rw [if_neg hv] at h; simp at h

/-- `argmaxFirst` fails only on the empty map. -/
theorem argmaxFirst_eq_none {l : PriceMap} (h : argmaxFirst l = none) :
    l = [] := by
  cases l with
  | nil => rfl
  | cons hd tl =>
    rcases hd with ⟨k, v⟩
    simp only [argmaxFirst] at h
    cases htl : argmaxFirst tl with
    | none => simp only [htl] at h; simp at h
    | some q =>
      rcases q with ⟨k2, v2⟩
      simp only [htl] at h
      by_cases hv : v < v2
      · rw [if_pos hv] at h; simp at h
      · rw [if_neg hv] at h; simp at h

/-- Whatever `argminFirst` returns is an entry of the map. -/
theorem argminFirst_mem {l : PriceMap} {p : String × ℚ}
    (h : argminFirst l = some p) : p ∈ l := by
  induction l generalizing p with
  | nil => simp [argminFirst] at h
  | cons hd tl ih =>
    rcases hd with ⟨k, v⟩
    simp only [argminFirst] at h
    cases htl : argminFirst tl with
    | none =>
      simp only [htl] at h
      obtain rfl : (k, v) = p := by injection h
      simp
    | some q =>
      rcases q with ⟨k2, v2⟩
      simp only [htl] at h
      by_cases hv : v2 < v
      · rw [if_pos hv] at h
        obtain rfl : (k2, v2) = p := by injection h
        exact List.mem_cons_of_mem _ (ih htl)
      · rw [if_neg hv] at h
        obtain rfl : (k, v) = p := by injection h
        simp

/-- The value returned by `argminFirst` is a lower bound of the map. -/
theorem argminFirst_le {l : PriceMap} {p : String × ℚ}
    (h : argminFirst l = some p) : ∀ q ∈ l, p.2 ≤ q.2 := by
  induction l generalizing p with
  | nil => simp [argminFirst] at h
  | cons hd tl ih =>
    rcases hd with ⟨k, v⟩
    simp only [argminFirst] at h
    cases htl : argminFirst tl with
    | none =>
      simp only [htl] at h
      obtain rfl : (k, v) = p := by injection h
      have hnil := argminFirst_eq_none htl
      subst hnil
      intro q hq
      simp at hq
      simp [hq]
    | some q =>
      rcases q with ⟨k2, v2⟩
      simp only [htl] at h
      by_cases hv : v2 < v
      · rw [if_pos hv] at h
        obtain rfl : (k2, v2) = p := by injection h
        intro r hr
        rcases List.mem_cons.1 hr with h1 | h2
        · rw [h1]; exact le_of_lt hv
        · exact ih htl r h2
      · rw [if_neg hv] at h
        obtain rfl : (k, v) = p := by injection h
        intro r hr
        rcases List.mem_cons.1 hr with h1 | h2
        · simp [h1]
        · calc v ≤ v2 := not_lt.1 hv
               _ ≤ r.2 := ih htl r h2

/-- First-seen tie break: the entry returned by `argminFirst` is the
first entry of the map whose value equals the minimum. -/
theorem argminFirst_find {l : PriceMap} {p : String × ℚ}
    (h : argminFirst l = some p) :
    l.find? (fun q => q.2 = p.2) = some p := by
  induction l generalizing p with
  | nil => simp [argminFirst] at h
  | cons hd tl ih =>
    rcases hd with ⟨k, v⟩
    simp only [argminFirst] at h
    cases htl : argminFirst tl with
    | none =>
      simp only [htl] at h
      obtain rfl : (k, v) = p := by injection h
      simp [List.find?]
    | some q =>
      rcases q with ⟨k2, v2⟩
      simp only [htl] at h
      by_cases hv : v2 < v
      · rw [if_pos hv] at h
        obtain rfl : (k2, v2) = p := by injection h
        have hne : ¬ (v = v2) := ne_of_gt hv
        simp only [List.find?, decide_eq_false hne]
        exact ih htl
      · rw [if_neg hv] at h
        obtain rfl : (k, v) = p := by injection h
        simp [List.find?]

/-- Whatever `argmaxFirst` returns is an entry of the map. -/
theorem argmaxFirst_mem {l : PriceMap} {p : String × ℚ}
    (h : argmaxFirst l = some p) : p ∈ l := by
  induction l generalizing p with
  | nil => simp [argmaxFirst] at h
  | cons hd tl ih =>
    rcases hd with ⟨k, v⟩
    simp only [argmaxFirst] at h
    cases htl : argmaxFirst tl with
    | none =>
      simp only [htl] at h
      obtain rfl : (k, v) = p := by injection h
      simp
    | some q =>
      rcases q with ⟨k2, v2⟩
      simp only [htl] at h
      by_cases hv : v < v2
      · rw [if_pos hv] at h
        obtain rfl : (k2, v2) = p := by injection h
        exact List.mem_cons_of_mem _ (ih htl)
      · rw [if_neg hv] at h
        obtain rfl : (k, v) = p := by injection h
        simp

/-- The value returned by `argmaxFirst` is an upper bound of the map. -/
theorem argmaxFirst_ge {l : PriceMap} {p : String × ℚ}
    (h : argmaxFirst l = some p) : ∀ q ∈ l, q.2 ≤ p.2 := by
  induction l generalizing p with
  | nil => simp [argmaxFirst] at h
  | cons hd tl ih =>
    rcases hd with ⟨k, v⟩
    simp only [argmaxFirst] at h
    cases htl : argmaxFirst tl with
    | none =>
      simp only [htl] at h
      obtain rfl : (k, v) = p := by injection h
      have hnil := argmaxFirst_eq_none htl
      subst hnil
      intro q hq
      simp at hq
      simp [hq]
    | some q =>
      rcases q with ⟨k2, v2⟩
      simp only [htl] at h
      by_cases hv : v < v2
      · rw [if_pos hv] at h
        obtain rfl : (k2, v2) = p := by injection h
        intro r hr
        rcases List.mem_cons.1 hr with h1 | h2
        · rw [h1]; exact le_of_lt hv
        · exact ih htl r h2
      · rw [if_neg hv] at h
        obtain rfl : (k, v) = p := by injection h
        intro r hr
        rcases List.mem_cons.1 hr with h1 | h2
        · simp [h1]
        · calc r.2 ≤ v2 := ih htl r h2
               _ ≤ v := not_lt.1 hv

/-- First-seen tie break: the entry returned by `argmaxFirst` is the
first entry of the map whose value equals the maximum. -/
theorem argmaxFirst_find {l : PriceMap} {p : String × ℚ}
    (h : argmaxFirst l = some p) :
    l.find? (fun q => q.2 = p.2) = some p := by
  induction l generalizing p with
  | nil => simp [argmaxFirst] at h
  | cons hd tl ih =>
    rcases hd with ⟨k, v⟩
    simp only [argmaxFirst] at h
    cases htl : argmaxFirst tl with
    | none =>
      simp only [htl] at h
      obtain rfl : (k, v) = p := by injection h
      simp [List.find?]
    | some q =>
      rcases q with ⟨k2, v2⟩
      simp only [htl] at h
      by_cases hv : v < v2
      · rw [if_pos hv] at h
        obtain rfl : (k2, v2) = p := by injection h
        have hne : ¬ (v = v2) := ne_of_lt hv
        simp only [List.find?, decide_eq_false hne]
        exact ih htl
      · rw [if_neg hv] at h
        obtain rfl : (k, v) = p := by injection h
        simp [List.find?]

/-- `argminFirst` never fails on a nonempty map. -/
theorem argminFirst_isSome {l : PriceMap} (h : l ≠ []) :
    (argminFirst l).isSome := by
  cases l with
  | nil => exact absurd rfl h
  | cons hd tl =>
    rcases hd with ⟨k, v⟩
    simp only [argminFirst]
    cases argminFirst tl with
    | none => simp
    | some q =>
      rcases q with ⟨k2, v2⟩
      by_cases hv : v2 < v <;> simp [hv]

/-- `argmaxFirst` never fails on a nonempty map. -/
theorem argmaxFirst_isSome {l : PriceMap} (h : l ≠ []) :
    (argmaxFirst l).isSome := by
  cases l with
  | nil => exact absurd rfl h
  | cons hd tl =>
    rcases hd with ⟨k, v⟩
    simp only [argmaxFirst]
    cases argmaxFirst tl with
    | none => simp
    | some q =>
      rcases q with ⟨k2, v2⟩
      by_cases hv : v < v2 <;> simp [hv]

end ArgLemmas

section ScannerLemmas

/-- Membership through `insertDesc`. -/
theorem mem_insertDesc {x y : ScanOpp} {l : List ScanOpp} :
    x ∈ insertDesc y l ↔ x = y ∨ x ∈ l := by
  induction l with
  | nil => simp [insertDesc]
  | cons z zs ih =>
    simp only [insertDesc]
    by_cases hz : z.profit_pct ≤ y.profit_pct
    · rw [if_pos hz]; simp
    · rw [if_neg hz]
      simp only [List.mem_cons, ih]
      tauto

/-- Sorting does not change the set of records. -/
theorem mem_sortByProfitDesc {x : ScanOpp} {l : List ScanOpp} :
    x ∈ sortByProfitDesc l ↔ x ∈ l := by
  induction l with
  | nil => simp [sortByProfitDesc]
  | cons z zs ih =>
    simp only [sortByProfitDesc, mem_insertDesc, List.mem_cons, ih]

/-- Every record produced by the pair loop comes from a venue pair of
the map and carries the arithmetic of lines 106-115. -/
theorem pairRecords_spec {token_id : ℕ} {symbol name : String} {tv : ℚ}
    {mode : String} {l : List (String × ℚ)} {o : ScanOpp}
    (h : o ∈ pairRecords token_id symbol name tv mode l) :
    (o.buy_dex, o.buy_price) ∈ l ∧ (o.sell_dex, o.sell_price) ∈ l ∧
    o.buy_price < o.sell_price ∧
    o.profit_usd = o.sell_price - o.buy_price ∧
    o.profit_pct = (if 0 < o.buy_price
      then (o.sell_price - o.buy_price) / o.buy_price * 100 else 0) ∧
    o.threshold_value = tv ∧ o.threshold_mode = mode ∧
    o.threshold_met = (if mode = "percentage"
      then decide (tv ≤ o.profit_pct) else decide (tv ≤ o.profit_usd)) := by
  induction l with
  | nil => simp [pairRecords] at h
  | cons b rest ih =>
    simp only [pairRecords, List.mem_append] at h
    rcases h with h | h
    · rcases List.mem_filterMap.1 h with ⟨s, hs, hif⟩
      by_cases hlt : b.2 < s.2
      · rw [if_pos hlt] at hif
        obtain rfl : pairOpp token_id symbol name tv mode b s = o := by
          injection hif
        refine ⟨List.mem_cons_self _ _, List.mem_cons_of_mem _ hs, hlt,
          rfl, rfl, rfl, rfl, rfl⟩
      · rw [if_neg hlt] at hif; cases hif
    · obtain ⟨h1, h2, h3, h4, h5, h6, h7, h8⟩ := ih h
      exact ⟨List.mem_cons_of_mem _ h1, List.mem_cons_of_mem _ h2,
        h3, h4, h5, h6, h7, h8⟩

/-- Same characterization after the sort. -/
theorem scanner_find_opportunities_spec {token_id : ℕ}
    {symbol name : String} {tv : ℚ} {mode : String} {l : PriceMap}
    {o : ScanOpp}
    (h : o ∈ scanner_find_opportunities token_id symbol name tv mode l) :
    (o.buy_dex, o.buy_price) ∈ l ∧ (o.sell_dex, o.sell_price) ∈ l ∧
    o.buy_price < o.sell_price ∧
    o.profit_usd = o.sell_price - o.buy_price ∧
    o.profit_pct = (if 0 < o.buy_price
      then (o.sell_price - o.buy_price) / o.buy_price * 100 else 0) ∧
    o.threshold_value = tv ∧ o.threshold_mode = mode ∧
    o.threshold_met = (if mode = "percentage"
      then decide (tv ≤ o.profit_pct) else decide (tv ≤ o.profit_usd)) :=
  pairRecords_spec (mem_sortByProfitDesc.1 h)

end ScannerLemmas

section AnalyzerLemmas

/-- Characterization of a reported `_analyze_price_spread` record. -/
theorem analyze_price_spread_spec {th : ℚ} {tok : String}
    {prices : PriceMap} {opp : ArbOpp}
    (h : analyze_price_spread th tok prices = some opp) :
    argminFirst prices = some (opp.buy_dex, opp.buy_price) ∧
    argmaxFirst prices = some (opp.sell_dex, opp.sell_price) ∧
    opp.profit_percent =
      (opp.sell_price - opp.buy_price) / opp.buy_price * 100 ∧
    th ≤ opp.profit_percent ∧ opp.token = tok := by
  cases hmin : argminFirst prices with
  | none => simp [analyze_price_spread, hmin] at h
  | some mn =>
    cases hmax : argmaxFirst prices with
    | none =>
      rcases mn with ⟨minDex, minPrice⟩
      simp [analyze_price_spread, hmin, hmax] at h
    | some mx =>
      rcases mn with ⟨minDex, minPrice⟩
      rcases mx with ⟨maxDex, maxPrice⟩
      simp only [analyze_price_spread, hmin, hmax] at h
      by_cases hth : th ≤ (maxPrice - minPrice) / minPrice * 100
      · rw [if_pos hth] at h
        obtain rfl := Option.some.inj h
        exact ⟨rfl, rfl, rfl, hth, rfl⟩
      · rw [if_neg hth] at h; cases h

/-- `_analyze_price_spread` reports exactly when the threshold is at or
below the min/max spread. -/
theorem analyze_price_spread_isSome_iff {th : ℚ} {tok : String}
    {prices : PriceMap} {mnD mxD : String} {mn mx : ℚ}
    (hmin : argminFirst prices = some (mnD, mn))
    (hmax : argmaxFirst prices = some (mxD, mx)) :
    (analyze_price_spread th tok prices).isSome = true ↔
      th ≤ (mx - mn) / mn * 100 := by
  simp only [analyze_price_spread, hmin, hmax]
  by_cases hth : th ≤ (mx - mn) / mn * 100
  · rw [if_pos hth]; simpa using hth
  · rw [if_neg hth]; simpa using hth

/-- A reported record's `profit_percent` is the `spread_percent` of the
map. -/
theorem spread_percent_of_analyze {th : ℚ} {tok : String}
    {prices : PriceMap} {opp : ArbOpp}
    (h : analyze_price_spread th tok prices = some opp) :
    spread_percent prices = some opp.profit_percent := by
  obtain ⟨hmin, hmax, hpp, -, -⟩ := analyze_price_spread_spec h
  simp only [spread_percent, hmin, hmax, hpp]

/-- Uniform positive rescaling of all prices commutes with
`argminFirst`. -/
theorem argminFirst_scale {c : ℚ} (hc : 0 < c) (l : PriceMap) :
    argminFirst (l.map fun p => (p.1, c * p.2)) =
      (argminFirst l).map fun p => (p.1, c * p.2) := by
  induction l with
  | nil => simp [argminFirst]
  | cons hd tl ih =>
    rcases hd with ⟨k, v⟩
    simp only [List.map, argminFirst, ih]
    cases argminFirst tl with
    | none => simp
    | some q =>
      rcases q with ⟨k2, v2⟩
      simp only [Option.map, mul_lt_mul_left hc]
      by_cases hv : v2 < v <;> simp [hv]

/-- Uniform positive rescaling of all prices commutes with
`argmaxFirst`. -/
theorem argmaxFirst_scale {c : ℚ} (hc : 0 < c) (l : PriceMap) :
    argmaxFirst (l.map fun p => (p.1, c * p.2)) =
      (argmaxFirst l).map fun p => (p.1, c * p.2) := by
  induction l with
  | nil => simp [argmaxFirst]
  | cons hd tl ih =>
    rcases hd with ⟨k, v⟩
    simp only [List.map, argmaxFirst, ih]
    cases argmaxFirst tl with
    | none => simp
    | some q =>
      rcases q with ⟨k2, v2⟩
      simp only [Option.map, mul_lt_mul_left hc]
      by_cases hv : v < v2 <;> simp [hv]

/-- `getAssoc` only returns stored entries. -/
theorem getAssoc_mem {κ α : Type} [DecidableEq κ] {k : κ} {v : α}
    {l : List (κ × α)} (h : getAssoc k l = some v) : (k, v) ∈ l := by
  induction l with
  | nil => simp [getAssoc] at h
  | cons hd tl ih =>
    rcases hd with ⟨k2, v2⟩
    simp only [getAssoc] at h
    by_cases hk : k2 = k
    · rw [if_pos hk] at h
      obtain rfl : v2 = v := by injection h
      simp [hk]
    · rw [if_neg hk] at h
      exact List.mem_cons_of_mem _ (ih h)

/-- With nonnegative stored prices, the venues kept by the scanner's
truthiness filter are exactly the venues with a positive price. -/
theorem scanner_token_prices_length {dexMap : List (String × PriceData)}
    (dexKeys : List String)
    (hnn : ∀ p ∈ dexMap, 0 ≤ (p : String × PriceData).2.price_usd) :
    (scanner_token_prices dexMap dexKeys).length =
      (dexKeys.filter fun dk =>
        match getAssoc dk dexMap with
        | some pd => decide (0 < pd.price_usd)
        | none => false).length := by
  induction dexKeys with
  | nil => rfl
  | cons dk rest ih =>
    simp only [scanner_token_prices, List.filterMap_cons, List.filter_cons]
    cases hdk : getAssoc dk dexMap with
    | none =>
      simp only [scanner_token_prices] at ih
      simpa using ih
    | some pd =>
      have hmem := getAssoc_mem hdk
      simp only [scanner_token_prices] at ih
      by_cases hz : pd.price_usd = 0
      · have h2 : ¬ (0 < pd.price_usd) := by simp [hz]
        simpa [hz, h2] using ih
      · have h2 : 0 < pd.price_usd :=
          lt_of_le_of_ne (hnn _ hmem) (Ne.symm hz)
        simpa [hz, h2] using ih

end AnalyzerLemmas


section BulkLemmas

/-- The misses list after scanning one symbol: the symbol is appended
exactly when it is new and at least one of its DEX keys misses. -/
theorem bulkScanSymbol_misses (cache : SimpleCache) (now : ℕ)
    (symbol : String) (dexKeys : List String)
    (h0 : List (String × PriceData)) (m0 : List String) :
    (bulkScanSymbol cache now symbol dexKeys (h0, m0)).2 =
      if symbol ∉ m0 ∧
          dexKeys.any (fun dk => (cache.get now (symbol, dk)).isNone)
      then m0 ++ [symbol] else m0 := by
  induction dexKeys generalizing h0 m0 with
  | nil => simp [bulkScanSymbol]
  | cons dk rest ih =>
    simp only [bulkScanSymbol]
    cases hdk : cache.get now (symbol, dk) with
    | some v =>
      rw [ih]
      simp [hdk]
    | none =>
      by_cases hm : symbol ∈ m0
      · simp only [if_pos hm]
        rw [ih]
        simp [hm]
      · simp only [if_neg hm]
        rw [ih]
        simp [hm, hdk]

/-- The misses list over all symbols: membership characterization. -/
theorem bulkStep1Aux_misses (cache : SimpleCache) (now : ℕ)
    (dexKeys : List String) (symbols : List String)
    (h0 : List (String × List (String × PriceData))) (m0 : List String)
    (x : String) :
    (x ∈ (bulkStep1Aux cache now dexKeys symbols (h0, m0)).2 ↔
      x ∈ m0 ∨ (x ∈ symbols ∧
        dexKeys.any (fun dk => (cache.get now (x, dk)).isNone))) := by
  induction symbols generalizing h0 m0 with
  | nil => simp [bulkStep1Aux]
  | cons s rest ih =>
    simp only [bulkStep1Aux]
    rw [ih, bulkScanSymbol_misses]
    by_cases hs : s ∉ m0 ∧
        dexKeys.any (fun dk => (cache.get now (s, dk)).isNone)
    · rw [if_pos hs]
      simp only [List.mem_append, List.mem_cons, List.mem_singleton,
        List.not_mem_nil, or_false]
      constructor
      · rintro ((hx | rfl) | hx)
        · exact Or.inl hx
        · exact Or.inr ⟨Or.inl rfl, hs.2⟩
        · exact Or.inr ⟨Or.inr hx.1, hx.2⟩
      · rintro (hx | ⟨rfl | hx, hany⟩)
        · exact Or.inl (Or.inl hx)
        · exact Or.inl (Or.inr rfl)
        · exact Or.inr ⟨hx, hany⟩
    · rw [if_neg hs]
      simp only [List.mem_cons]
      constructor
      · rintro (hx | hx)
        · exact Or.inl hx
        · exact Or.inr ⟨Or.inr hx.1, hx.2⟩
      · rintro (hx | ⟨rfl | hx, hany⟩)
        · exact Or.inl hx
        · rcases not_and_or.1 hs with h | h
          · exact Or.inl (not_not.1 h)
          · exact absurd hany h
        · exact Or.inr ⟨hx, hany⟩

/-- The misses list never repeats a symbol. -/
theorem bulkStep1Aux_nodup (cache : SimpleCache) (now : ℕ)
    (dexKeys : List String) (symbols : List String)
    (h0 : List (String × List (String × PriceData))) (m0 : List String)
    (hm0 : m0.Nodup) :
    (bulkStep1Aux cache now dexKeys symbols (h0, m0)).2.Nodup := by
  induction symbols generalizing h0 m0 with
  | nil => simpa [bulkStep1Aux] using hm0
  | cons s rest ih =>
    simp only [bulkStep1Aux]
    rw [bulkScanSymbol_misses]
    by_cases hs : s ∉ m0 ∧
        dexKeys.any (fun dk => (cache.get now (s, dk)).isNone)
    · rw [if_pos hs]
      exact ih _ _ (by simp [List.nodup_append, hm0, hs.1])
    · rw [if_neg hs]
      exact ih _ _ hm0

end BulkLemmas

/-! ## Claim theorems: spread analysis -/

/-- Claim C1, counterexample: with a percentage threshold of 1000 and a
spread of only 100 percent, `ArbitrageScannerThread.find_opportunities`
still returns (and the thread emits) one opportunity record for the
token; it is merely flagged `threshold_met = false`. The claim as
stated says no opportunity would be reported. -/
theorem C1_counterexample :
    (scanner_find_opportunities 1 "TKN" "Token" 1000 "percentage"
        [("uniswap_v3", 1), ("sushiswap", 2)]).map
      (fun o => (o.buy_dex, o.sell_dex, o.profit_pct, o.threshold_met)) =
      [("uniswap_v3", "sushiswap", 100, false)] ∧ (100 : ℚ) < 1000 := by
  constructor
  · norm_num [scanner_find_opportunities, pairRecords, pairOpp,
      sortByProfitDesc, insertDesc]
  · norm_num

/-- Claim C1 (amended): `ArbitrageAnalyzer._analyze_price_spread`
reports an opportunity only when `profit_percent >= threshold` (it has
a percentage threshold only); `ArbitrageScannerThread.find_opportunities`
instead returns a record for every venue pair with
`buy_price < sell_price` regardless of the threshold, and its
`threshold_met` flag is true exactly when `profit_pct >= threshold`
(percentage mode) or `profit_usd >= threshold` (dollar mode). -/
theorem C1_threshold_gating :
    (∀ (th : ℚ) (tok : String) (prices : PriceMap) (opp : ArbOpp),
      analyze_price_spread th tok prices = some opp →
      th ≤ opp.profit_percent) ∧
    (∀ (token_id : ℕ) (symbol name : String) (tv : ℚ) (mode : String)
        (prices : PriceMap) (o : ScanOpp),
      o ∈ scanner_find_opportunities token_id symbol name tv mode prices →
      (o.threshold_met = true ↔
        if mode = "percentage" then tv ≤ o.profit_pct
        else tv ≤ o.profit_usd)) := by
  constructor
  · intro th tok prices opp h
    exact (analyze_price_spread_spec h).2.2.2.1
  · intro token_id symbol name tv mode prices o h
    have h8 :=
      (scanner_find_opportunities_spec h).2.2.2.2.2.2.2
    rw [h8]
    by_cases hm : mode = "percentage" <;> simp [hm]

/-- Witness for C1: a concrete scanner record below its percentage
threshold has `threshold_met = false`. -/
theorem C1_threshold_gating_witness :
    ((⟨1, "TKN", "Token", "uniswap_v3", 1, "sushiswap", 2, 1, 100, 1000,
        "percentage", false⟩ : ScanOpp).threshold_met = true ↔
      (if ("percentage" : String) = "percentage" then (1000 : ℚ) ≤ 100
       else (1000 : ℚ) ≤ 1)) :=
  C1_threshold_gating.2 1 "TKN" "Token" 1000 "percentage"
    [("uniswap_v3", 1), ("sushiswap", 2)] _
    (by norm_num [scanner_find_opportunities, pairRecords, pairOpp,
      sortByProfitDesc, insertDesc])

/-- Claim C3, counterexample: on the map
`{uniswap_v3: 1, sushiswap: 2, curve: 4}` the scanner reports a record
whose buy venue is `sushiswap` at price 2, which does not attain the
minimum price 1; the claim says every reported buy venue attains the
minimum. -/
theorem C3_counterexample :
    (scanner_find_opportunities 1 "TKN" "Token" 0 "percentage"
        [("uniswap_v3", 1), ("sushiswap", 2), ("curve", 4)]).map
      (fun o => (o.buy_dex, o.buy_price)) =
      [("uniswap_v3", 1), ("uniswap_v3", 1), ("sushiswap", 2)] ∧
    argminFirst [("uniswap_v3", (1 : ℚ)), ("sushiswap", 2), ("curve", 4)] =
      some ("uniswap_v3", 1) := by
  constructor
  · norm_num [scanner_find_opportunities, pairRecords, pairOpp,
      sortByProfitDesc, insertDesc]
  · decide

/-- Claim C3 (amended): in `ArbitrageAnalyzer._analyze_price_spread`
the reported buy venue is the first-seen venue attaining the minimum
price, the sell venue is the first-seen venue attaining the maximum
price, and `profit_percent = (max - min) / min * 100`. The scanner
instead reports one record per ordered venue pair with strictly
increasing price, each carrying
`profit_dollar = sell_price - buy_price` and
`profit_percent = (sell - buy) / buy * 100` for that pair. -/
theorem C3_minmax_venues :
    (∀ (th : ℚ) (tok : String) (prices : PriceMap) (opp : ArbOpp),
      analyze_price_spread th tok prices = some opp →
      (∀ p ∈ prices, opp.buy_price ≤ p.2 ∧ p.2 ≤ opp.sell_price) ∧
      prices.find? (fun q => q.2 = opp.buy_price) =
        some (opp.buy_dex, opp.buy_price) ∧
      prices.find? (fun q => q.2 = opp.sell_price) =
        some (opp.sell_dex, opp.sell_price) ∧
      opp.profit_percent =
        (opp.sell_price - opp.buy_price) / opp.buy_price * 100) ∧
    (∀ (token_id : ℕ) (symbol name : String) (tv : ℚ) (mode : String)
        (prices : PriceMap) (o : ScanOpp),
      o ∈ scanner_find_opportunities token_id symbol name tv mode prices →
      o.buy_price < o.sell_price ∧
      o.profit_usd = o.sell_price - o.buy_price ∧
      (0 < o.buy_price →
        o.profit_pct = (o.sell_price - o.buy_price) / o.buy_price * 100)) := by
  constructor
  · intro th tok prices opp h
    obtain ⟨hmin, hmax, hpp, -, -⟩ := analyze_price_spread_spec h
    refine ⟨?_, ?_, ?_, hpp⟩
    · intro p hp
      exact ⟨argminFirst_le hmin p hp, argmaxFirst_ge hmax p hp⟩
    · exact argminFirst_find hmin
    · exact argmaxFirst_find hmax
  · intro token_id symbol name tv mode prices o h
    obtain ⟨-, -, hlt, husd, hpct, -, -, -⟩ :=
      scanner_find_opportunities_spec h
    refine ⟨hlt, husd, fun hb => ?_⟩
    rw [hpct, if_pos hb]

/-- Witness for C3: on a concrete two-venue map the analyzer's reported
buy venue is the first entry attaining the minimum. -/
theorem C3_minmax_venues_witness :
    [("uniswap_v3", (1 : ℚ)), ("sushiswap", 2)].find?
        (fun q => q.2 = 1) = some ("uniswap_v3", 1) :=
  (C3_minmax_venues.1 0 "TKN" [("uniswap_v3", 1), ("sushiswap", 2)]
    ⟨"TKN", "uniswap_v3", 1, "sushiswap", 2, 100⟩
    (by norm_num [analyze_price_spread, argminFirst, argmaxFirst])).2.1

/-- Claim C4: if fewer than two venues have a positive known price for
a token, neither `ArbitrageAnalyzer.find_opportunities` nor
`ArbitrageScannerThread.run` produces a record for that token. For the
scanner the price feed is assumed nonnegative (its truthiness filter
`price_data.get('price_usd')` only discards zero, and feed prices are
CoinGecko quotes scaled by a positive factor). -/
theorem C4_insufficient_venues :
    (∀ (th : ℚ) (getPrice : String → String → Option ℚ)
        (tokens dexes : List String) (token : String),
      (analyzer_token_prices getPrice dexes token).length < 2 →
      ∀ opp ∈ analyzer_find_opportunities th getPrice tokens dexes,
        opp.token ≠ token) ∧
    (∀ (allPrices : List (String × List (String × PriceData)))
        (dexKeys : List String) (token_id : ℕ) (symbol name : String)
        (tv : ℚ) (mode : String),
      (∀ dexMap, getAssoc symbol allPrices = some dexMap →
        ∀ p ∈ dexMap, 0 ≤ (p : String × PriceData).2.price_usd) →
      positiveVenueCount allPrices dexKeys symbol < 2 →
      scanner_run_token allPrices dexKeys token_id symbol name tv mode
        = []) := by
  constructor
  · intro th g tokens dexes token hlt opp hopp
    rcases List.mem_filterMap.1 hopp with ⟨t2, ht2, hf⟩
    by_cases h2 : 2 ≤ (analyzer_token_prices g dexes t2).length
    · have hf2 : analyze_price_spread th t2
          (analyzer_token_prices g dexes t2) = some opp := by
        simpa [h2] using hf
      have htok := (analyze_price_spread_spec hf2).2.2.2.2
      intro heq
      have ht : t2 = token := by rw [← htok, heq]
      rw [ht] at h2
      omega
    · rw [if_neg h2] at hf
      cases hf
  · intro allPrices dexKeys token_id symbol name tv mode hnn hcnt
    cases hsym : getAssoc symbol allPrices with
    | none => simp [scanner_run_token, hsym]
    | some dexMap =>
      have hlen := scanner_token_prices_length dexKeys (hnn _ hsym)
      have hcnt2 : ¬ 2 ≤ (scanner_token_prices dexMap dexKeys).length := by
        rw [hlen]
        have := hcnt
        simp only [positiveVenueCount, hsym] at this
        omega
      simp [scanner_run_token, hsym, hcnt2]

/-- Witness for C4: one stale venue with price zero is not enough to
trigger an analysis. -/
theorem C4_insufficient_venues_witness :
    scanner_run_token
      [("ETH", [("uniswap_v3",
        { price_usd := 0, volume_24h := 0, price_change_24h := 0,
          liquidity_usd := 0, last_updated := "", source := "" })])]
      ["uniswap_v3", "sushiswap"] 1 "ETH" "Ether" 1 "percentage" = [] := by
  apply C4_insufficient_venues.2
  · intro dexMap hm p hp
    have hm2 : dexMap = [("uniswap_v3",
        { price_usd := 0, volume_24h := 0, price_change_24h := 0,
          liquidity_usd := 0, last_updated := "", source := "" })] := by
      simpa [getAssoc] using hm.symm
    subst hm2
    simp at hp
    simp [hp]
  · decide

/-- Claim C6: `profit_percent` is invariant under rescaling every price
by the same positive factor (exact arithmetic). -/
theorem C6_scale_invariance (prices : PriceMap) (c : ℚ) (hc : 0 < c)
    (hpos : ∀ p ∈ prices, 0 < (p : String × ℚ).2)
    (hlen : 2 ≤ prices.length) :
    spread_percent (prices.map fun p => (p.1, c * p.2)) =
      spread_percent prices := by
  have hne : prices ≠ [] := by
    intro h; rw [h] at hlen; simp at hlen
  obtain ⟨mn, hmin⟩ :=
    Option.isSome_iff_exists.1 (argminFirst_isSome hne)
  obtain ⟨mx, hmax⟩ :=
    Option.isSome_iff_exists.1 (argmaxFirst_isSome hne)
  rcases mn with ⟨mnD, mnV⟩
  rcases mx with ⟨mxD, mxV⟩
  have hmnpos : 0 < mnV := hpos _ (argminFirst_mem hmin)
  have hmin2 := argminFirst_scale hc prices
  rw [hmin] at hmin2
  have hmax2 := argmaxFirst_scale hc prices
  rw [hmax] at hmax2
  simp only [Option.map] at hmin2 hmax2
  simp only [spread_percent, hmin, hmax, hmin2, hmax2]
  congr 1
  have h1 : c ≠ 0 := ne_of_gt hc
  have h2 : mnV ≠ 0 := ne_of_gt hmnpos
  field_simp
  ring

/-- Witness for C6: rescaling a concrete two-venue map by 3 leaves the
percentage spread unchanged. -/
theorem C6_scale_invariance_witness :
    spread_percent ([("a", (1 : ℚ)), ("b", 2)].map
        fun p => (p.1, 3 * p.2)) =
      spread_percent [("a", 1), ("b", 2)] :=
  C6_scale_invariance [("a", 1), ("b", 2)] 3 (by norm_num) (by decide)
    (by decide)

/-- Claim C7: with `S` the true max spread of the map, the analyzer
reports no opportunity at thresholds strictly above `S`, reports one at
every threshold at or below `S`, and reporting is antitone in the
threshold. -/
theorem C7_threshold_antitone (tok : String) (prices : PriceMap)
    {mnD mxD : String} {mn mx S : ℚ}
    (hpos : ∀ p ∈ prices, 0 < (p : String × ℚ).2)
    (hlen : 2 ≤ prices.length)
    (hmin : argminFirst prices = some (mnD, mn))
    (hmax : argmaxFirst prices = some (mxD, mx))
    (hS : S = (mx - mn) / mn * 100) :
    (∀ th : ℚ, S < th → analyze_price_spread th tok prices = none) ∧
    (∀ th : ℚ, th ≤ S →
      (analyze_price_spread th tok prices).isSome = true) ∧
    (∀ th1 th2 : ℚ, th1 ≤ th2 →
      (analyze_price_spread th2 tok prices).isSome = true →
      (analyze_price_spread th1 tok prices).isSome = true) := by
  subst hS
  refine ⟨?_, ?_, ?_⟩
  · intro th hth
    cases h : analyze_price_spread th tok prices with
    | none => rfl
    | some opp =>
      exfalso
      have h2 := (analyze_price_spread_isSome_iff hmin hmax).1
        (by rw [h]; rfl)
      exact absurd h2 (not_le.2 hth)
  · intro th hth
    exact (analyze_price_spread_isSome_iff hmin hmax).2 hth
  · intro th1 th2 h12 h2
    exact (analyze_price_spread_isSome_iff hmin hmax).2
      (le_trans h12 ((analyze_price_spread_isSome_iff hmin hmax).1 h2))

/-- Witness for C7: on a map with true spread 100 percent, threshold
101 reports nothing and threshold 100 reports an opportunity. -/
theorem C7_threshold_antitone_witness :
    analyze_price_spread 101 "TKN" [("a", (1 : ℚ)), ("b", 2)] = none ∧
    (analyze_price_spread 100 "TKN"
      [("a", (1 : ℚ)), ("b", 2)]).isSome = true := by
  have h := C7_threshold_antitone "TKN" [("a", (1 : ℚ)), ("b", 2)]
    (by decide) (by decide)
    (by decide : argminFirst [("a", (1 : ℚ)), ("b", 2)] = some ("a", 1))
    (by decide : argmaxFirst [("a", (1 : ℚ)), ("b", 2)] = some ("b", 2))
    rfl
  exact ⟨h.1 101 (by norm_num), h.2.1 100 (by norm_num)⟩


/-! ## Claim theorems: data service and cache -/

/-- Claim C2: a bulk fetch issues at most one upstream request; the
request carries exactly the distinct symbols with at least one cache
miss, and no request is issued when every (symbol, dex) pair hits. -/
theorem C2_single_upstream_call
    (provider : List String → List (String × BaseData))
    (vary : String → String → ℚ) (now : ℕ) (cache : SimpleCache)
    (token_symbols dex_keys : List String)
    (hne : token_symbols ≠ []) :
    (get_bulk_prices_all_dexes provider vary now cache token_symbols
        dex_keys).2.2.length ≤ 1 ∧
    (∀ c ∈ (get_bulk_prices_all_dexes provider vary now cache
        token_symbols dex_keys).2.2,
      c.Nodup ∧ ∀ x, x ∈ c ↔ x ∈ token_symbols ∧
        ∃ dk ∈ dex_keys, cache.get now (x, dk) = none) ∧
    ((∀ s ∈ token_symbols, ∀ dk ∈ dex_keys,
        (cache.get now (s, dk)).isSome = true) →
      (get_bulk_prices_all_dexes provider vary now cache token_symbols
        dex_keys).2.2 = []) := by
  simp only [get_bulk_prices_all_dexes, if_neg hne]
  by_cases hmiss : (bulkStep1 cache now dex_keys token_symbols).2 = []
  · rw [if_pos hmiss]
    refine ⟨by simp, by simp, fun _ => rfl⟩
  · rw [if_neg hmiss]
    have hchar : ∀ x,
        x ∈ (bulkStep1 cache now dex_keys token_symbols).2 ↔
          x ∈ token_symbols ∧
            ∃ dk ∈ dex_keys, cache.get now (x, dk) = none := by
      intro x
      rw [bulkStep1, bulkStep1Aux_misses]
      simp [List.any_eq_true, Option.isNone_iff_eq_none]
    refine ⟨by simp, ?_, ?_⟩
    · intro c hc
      have hc2 : c = (bulkStep1 cache now dex_keys token_symbols).2 := by
        simpa using hc
      subst hc2
      exact ⟨bulkStep1Aux_nodup cache now dex_keys token_symbols [] []
        (by simp), hchar⟩
    · intro hall
      exfalso
      apply hmiss
      cases hx : (bulkStep1 cache now dex_keys token_symbols).2 with
      | nil => rfl
      | cons y ys =>
        exfalso
        have hy : y ∈ (bulkStep1 cache now dex_keys token_symbols).2 := by
          rw [hx]; exact List.mem_cons_self y ys
        obtain ⟨hy1, dk, hdk, hnone⟩ := (hchar y).1 hy
        have := hall y hy1 dk hdk
        rw [hnone] at this
        cases this

/-- Witness for C2: one tracked symbol over one venue against an empty
cache triggers at most one upstream request. -/
theorem C2_single_upstream_call_witness :
    (get_bulk_prices_all_dexes
        (fun ss => ss.map fun s2 => (s2, ⟨1, 0, 0, 0, ""⟩))
        (fun _ _ => 1) 0 ⟨[], 30⟩ ["ETH"] ["uniswap_v3"]).2.2.length ≤ 1 :=
  (C2_single_upstream_call
    (fun ss => ss.map fun s2 => (s2, ⟨1, 0, 0, 0, ""⟩))
    (fun _ _ => 1) 0 ⟨[], 30⟩ ["ETH"] ["uniswap_v3"] (by decide)).1

/-- Claim C5: with an unexpired cache entry for the (symbol, dex) pair
(TTL is `Config.PRICE_CACHE_TTL = 30` seconds since insertion),
`get_token_price` returns exactly the cached record, leaves the cache
unchanged, and calls the provider zero times; in general the provider
is called only when the cache lookup misses. -/
theorem C5_cache_hit_no_network :
    (∀ (provider : String → Option BaseData) (variation : ℚ)
        (now t : ℕ) (cache : SimpleCache) (symbol dex : String)
        (v : PriceData),
      cache.ttl = Config.PRICE_CACHE_TTL →
      getAssoc (symbol, dex) cache.entries = some (v, t) →
      now < t + Config.PRICE_CACHE_TTL →
      get_token_price provider variation now cache symbol dex =
        (some v, cache, 0)) ∧
    (∀ (provider : String → Option BaseData) (variation : ℚ) (now : ℕ)
        (cache : SimpleCache) (symbol dex : String),
      1 ≤ (get_token_price provider variation now cache symbol dex).2.2 →
      cache.get now (symbol, dex) = none) := by
  constructor
  · intro provider variation now t cache symbol dex v httl hentry hfresh
    have hget : cache.get now (symbol, dex) = some v := by
      rw [SimpleCache.get, hentry, httl]
      simp only [if_pos hfresh]
    rw [get_token_price, hget]
  · intro provider variation now cache symbol dex h
    cases hget : cache.get now (symbol, dex) with
    | none => rfl
    | some c =>
      rw [get_token_price, hget] at h
      simp at h

/-- Witness for C5: a 29-second-old entry is served from cache with no
provider call; with an empty cache the call count can reach 1. -/
theorem C5_cache_hit_no_network_witness :
    get_token_price (fun _ => none) 1 29
      ⟨[(("ETH", "uniswap_v3"),
        ({ price_usd := 1, volume_24h := 0, price_change_24h := 0,
           liquidity_usd := 0, last_updated := "", source := "" }, 0))],
       30⟩ "ETH" "uniswap_v3" =
      (some { price_usd := 1, volume_24h := 0, price_change_24h := 0,
              liquidity_usd := 0, last_updated := "", source := "" },
       ⟨[(("ETH", "uniswap_v3"),
         ({ price_usd := 1, volume_24h := 0, price_change_24h := 0,
            liquidity_usd := 0, last_updated := "", source := "" }, 0))],
        30⟩, 0) ∧
    SimpleCache.get ⟨[], 30⟩ 0 ("ETH", "uniswap_v3") = none :=
  ⟨C5_cache_hit_no_network.1 (fun _ => none) 1 29 0 _ "ETH" "uniswap_v3"
      _ rfl rfl (by decide),
   C5_cache_hit_no_network.2 (fun _ => none) 1 0 ⟨[], 30⟩ "ETH"
      "uniswap_v3" (by decide)⟩

/-- Round half to even moves a rational by at most one half. -/
theorem rhe_bound (x : ℚ) :
    x - 1/2 ≤ (rhe x : ℚ) ∧ (rhe x : ℚ) ≤ x + 1/2 := by
  have hf1 : (⌊x⌋ : ℚ) ≤ x := Int.floor_le x
  have hf2 : x < ⌊x⌋ + 1 := Int.lt_floor_add_one x
  simp only [rhe]
  by_cases h1 : x - ⌊x⌋ < 1/2
  · rw [if_pos h1]
    constructor <;> linarith
  · rw [if_neg h1]
    by_cases h2 : 1/2 < x - ⌊x⌋
    · rw [if_pos h2]
      push_cast
      constructor <;> linarith
    · rw [if_neg h2]
      have h3 : x - ⌊x⌋ = 1/2 := le_antisymm (not_lt.1 h2) (not_lt.1 h1)
      by_cases h4 : Even (⌊x⌋ : ℤ)
      · rw [if_pos h4]
        constructor <;> linarith
      · rw [if_neg h4]
        push_cast
        constructor <;> linarith

/-- Rounding to six decimals moves a rational by at most half an ulp. -/
theorem round6_bound (x : ℚ) :
    x - 1/2000000 ≤ round6 x ∧ round6 x ≤ x + 1/2000000 := by
  obtain ⟨h1, h2⟩ := rhe_bound (x * 1000000)
  rw [round6]
  constructor <;> linarith

/-- Claim C8: `_generate_dex_price` returns the base price times the
drawn variation, rounded to six decimals; for any draw in the interval
`[0.999, 1.02]` the venue price therefore lies between `0.999` and
`1.02` times the base price, up to half of the final rounding ulp. -/
theorem C8_dex_price_bounds (base : BaseData) (dex_key : String)
    (variation : ℚ) (hb : 0 < base.price_usd)
    (h1 : 999/1000 ≤ variation) (h2 : variation ≤ 102/100) :
    (generate_dex_price base dex_key variation).price_usd =
      round6 (base.price_usd * variation) ∧
    999/1000 * base.price_usd - 1/2000000 ≤
      (generate_dex_price base dex_key variation).price_usd ∧
    (generate_dex_price base dex_key variation).price_usd ≤
      102/100 * base.price_usd + 1/2000000 := by
  obtain ⟨hlo, hhi⟩ := round6_bound (base.price_usd * variation)
  refine ⟨rfl, ?_, ?_⟩
  · have hm : 999/1000 * base.price_usd ≤ base.price_usd * variation := by
      nlinarith
    calc 999/1000 * base.price_usd - 1/2000000
        ≤ base.price_usd * variation - 1/2000000 := by linarith
      _ ≤ (generate_dex_price base dex_key variation).price_usd := hlo
  · have hm : base.price_usd * variation ≤ 102/100 * base.price_usd := by
      nlinarith
    calc (generate_dex_price base dex_key variation).price_usd
        ≤ base.price_usd * variation + 1/2000000 := hhi
      _ ≤ 102/100 * base.price_usd + 1/2000000 := by linarith

/-- Witness for C8: base price 1 with a unit draw stays within the
jitter interval up to rounding. -/
theorem C8_dex_price_bounds_witness :
    999/1000 * (1 : ℚ) - 1/2000000 ≤
      (generate_dex_price ⟨1, 0, 0, 0, ""⟩ "uniswap_v3" 1).price_usd :=
  (C8_dex_price_bounds ⟨1, 0, 0, 0, ""⟩ "uniswap_v3" 1 (by norm_num)
    (by norm_num) (by norm_num)).2.1

/-- Claim C9: `add_token_to_tracked` and `update_token_threshold`
reject a negative threshold or an unknown mode, returning `False` and
performing no database write; with a nonnegative threshold and a valid
mode they perform the corresponding database write and return
`True`. -/
theorem C9_threshold_validation :
    (∀ (st : TrackedState) (token_id : ℕ) (tv : ℚ) (mode : String),
      tv < 0 ∨ (mode ≠ "percentage" ∧ mode ≠ "dollar") →
      add_token_to_tracked st token_id tv mode = (false, st) ∧
      update_token_threshold st token_id tv mode = (false, st)) ∧
    (∀ (st : TrackedState) (token_id : ℕ) (tv : ℚ) (mode : String),
      0 ≤ tv → mode = "percentage" ∨ mode = "dollar" →
      add_token_to_tracked st token_id tv mode =
        (true, db_add_tracked_token st token_id tv mode) ∧
      update_token_threshold st token_id tv mode =
        (true, db_update_token_threshold st token_id tv mode)) := by
  constructor
  · intro st token_id tv mode h
    by_cases htv : tv < 0
    · constructor <;>
        simp [add_token_to_tracked, update_token_threshold, htv]
    · rcases h with h | h
      · exact absurd h htv
      · constructor <;>
          simp [add_token_to_tracked, update_token_threshold, htv,
            h.1, h.2]
  · intro st token_id tv mode htv hm
    have h1 : ¬ tv < 0 := not_lt.2 htv
    have h2 : mode ∈ ["percentage", "dollar"] := by
      rcases hm with h | h <;> simp [h]
    constructor <;>
      simp [add_token_to_tracked, update_token_threshold, h1, h2]

/-- Witness for C9: a negative threshold is rejected without a write;
a valid dollar-mode update is applied and acknowledged. -/
theorem C9_threshold_validation_witness :
    add_token_to_tracked ⟨[]⟩ 7 (-1) "percentage" = (false, ⟨[]⟩) ∧
    update_token_threshold ⟨[(7, 1, "percentage")]⟩ 7 2 "dollar" =
      (true,
       db_update_token_threshold ⟨[(7, 1, "percentage")]⟩ 7 2 "dollar") :=
  ⟨(C9_threshold_validation.1 ⟨[]⟩ 7 (-1) "percentage"
      (Or.inl (by norm_num))).1,
   (C9_threshold_validation.2 ⟨[(7, 1, "percentage")]⟩ 7 2 "dollar"
      (by norm_num) (Or.inr rfl)).2⟩


/-! ## Claim theorems: price formatting -/

/-- `rstrip` keeps a head character that is not the strip character. -/
theorem stripTail_cons_ne (c x : Char) (xs : List Char) (h : x ≠ c) :
    stripTail c (x :: xs) = x :: stripTail c xs := by
  simp only [stripTail]
  rw [if_neg fun hab => h hab.2]

/-- Claim C10: nonpositive prices format as `"$0.00"`; positive prices
begin with `"$"` and use 6 decimals with trailing zeros and a trailing
decimal point stripped below 0.01, 4 decimals below 1, 3 decimals
below 100, and 2 decimals with comma grouping from 100 up. -/
theorem C10_format_price (p : ℚ) :
    (p ≤ 0 → format_price p = "$0.00") ∧
    (0 < p →
      (format_price p).data.head? = some '$' ∧
      (p < 1/100 → format_price p =
        ⟨stripTail '.' (stripTail '0' ('$' :: formatFixed p 6))⟩) ∧
      (1/100 ≤ p → p < 1 →
        format_price p = ⟨'$' :: formatFixed p 4⟩) ∧
      (1 ≤ p → p < 100 →
        format_price p = ⟨'$' :: formatFixed p 3⟩) ∧
      (100 ≤ p → format_price p = ⟨'$' :: formatFixedCommas p 2⟩)) := by
  constructor
  · intro h
    rw [format_price, if_pos h]
  · intro hp
    have h0 : ¬ p ≤ 0 := not_le.2 hp
    refine ⟨?_, ?_, ?_, ?_, ?_⟩
    · rw [format_price, if_neg h0]
      by_cases t1 : p < 1/100
      · rw [if_pos t1]
        rw [stripTail_cons_ne _ _ _ (by decide)]
        rw [stripTail_cons_ne _ _ _ (by decide)]
        rfl
      · rw [if_neg t1]
        by_cases t2 : p < 1
        · rw [if_pos t2]; rfl
        · rw [if_neg t2]
          by_cases t3 : p < 100
          · rw [if_pos t3]; rfl
          · rw [if_neg t3]; rfl
    · intro t1
      rw [format_price, if_neg h0, if_pos t1]
    · intro t1 t2
      rw [format_price, if_neg h0, if_neg (not_lt.2 t1), if_pos t2]
    · intro t1 t2
      have n1 : ¬ p < 1/100 := not_lt.2 (by linarith)
      rw [format_price, if_neg h0, if_neg n1, if_neg (not_lt.2 t1),
        if_pos t2]
    · intro t1
      have n1 : ¬ p < 1/100 := not_lt.2 (by linarith)
      have n2 : ¬ p < 1 := not_lt.2 (by linarith)
      rw [format_price, if_neg h0, if_neg n1, if_neg n2,
        if_neg (not_lt.2 t1)]

/-- Witness for C10: a nonpositive price and a small-tier price. -/
theorem C10_format_price_witness :
    format_price (-1) = "$0.00" ∧
    format_price (1/2) = ⟨'$' :: formatFixed (1/2) 4⟩ :=
  ⟨(C10_format_price (-1)).1 (by norm_num),
   ((C10_format_price (1/2)).2 (by norm_num)).2.2.1 (by norm_num)
     (by norm_num)⟩

end DexAnalyzer
